import Mathlib

/-!
# Now-playing scraper: extraction, enrichment and daily dedup log

A shallow embedding of `scripts/scrape.js`.

Modelling conventions.
* A JavaScript string is a `List Char` (`Str`): a well-formed sequence of Unicode scalar
  values.  Lone surrogates, on which `encodeURIComponent` throws, are outside the model.
* The outside world (page read, the two HTTP lookups, the clock, the persisted day file)
  is passed in explicitly; everything computed from it is a pure function.
* A thrown exception is `Except.error`.
-/

namespace Scraper

/-- A JavaScript string. -/
abbrev Str := List Char

/-! ## String primitives -/

/-- The double quote character. -/
def dq : Char := Char.ofNat 34

/-- The apostrophe character. -/
def sq : Char := Char.ofNat 39

/-- The backslash character. -/
def backslash : Char := Char.ofNat 92

/-- ECMAScript `LineTerminator`: the characters the regex atom `.` does not match. -/
def isLineTerminator (c : Char) : Bool :=
  let n := c.toNat
  n == 10 || n == 13 || n == 0x2028 || n == 0x2029

/-- ECMAScript `\s` (and the set `String.prototype.trim` strips): `WhiteSpace` and
`LineTerminator`. -/
def isWhiteSpace (c : Char) : Bool :=
  let n := c.toNat
  n == 9 || n == 10 || n == 11 || n == 12 || n == 13 || n == 32 || n == 160 ||
  n == 0x1680 || (0x2000 ≤ n && n ≤ 0x200a) || n == 0x2028 || n == 0x2029 ||
  n == 0x202f || n == 0x205f || n == 0x3000 || n == 0xfeff

/-- JavaScript truthiness of a string: non-empty. -/
def truthy (s : Str) : Bool := !s.isEmpty

/-- The scanner behind `.replace(/\s+/g, ' ')`: the first character of every maximal
whitespace run is replaced by one space and the rest of the run is dropped.  The flag
says whether the previous character was whitespace. -/
def collapseWs : Bool → Str → Str
  | _, [] => []
  | inRun, c :: cs =>
    if isWhiteSpace c then
      (if inRun then collapseWs true cs else ' ' :: collapseWs true cs)
    else c :: collapseWs false cs

/-- `String.prototype.trim`. -/
def trim (s : Str) : Str := (s.dropWhile isWhiteSpace).rdropWhile isWhiteSpace

/-- `normalize(s)`: `(s || '').replace(/\s+/g, ' ').trim()`; `none` is `null`/`undefined`. -/
def normalize (s : Option Str) : Str := trim (collapseWs false (s.getD []))

/-- `x ||= y` on strings: keep `x` when it is truthy, else take `y`. -/
def orAssign (x y : Str) : Str := if truthy x then x else y

/-- `a || b` on optional strings (`none` is `null`/`undefined`). -/
def jsOr (a b : Option Str) : Option Str :=
  match a with
  | some s => if truthy s then some s else b
  | none => b

/-- `s.includes(pat)`. -/
def includes (pat : Str) : Str → Bool
  | [] => pat.isEmpty
  | c :: cs => pat.isPrefixOf (c :: cs) || includes pat cs

/-- Leftmost-position search of a regex: the first suffix of the input at which the
anchored matcher succeeds. -/
def firstMatch {α : Type} (f : Str → Option α) : Str → Option α
  | [] => f []
  | c :: cs =>
    match f (c :: cs) with
    | some r => some r
    | none => firstMatch f cs

/-- Literal pattern text under the `i` flag, anchored at the start of the input.  Without
the `u` flag only ASCII letters fold onto ASCII letters, which is what `Char.toLower`
does. -/
def ciPrefix (pat s : Str) : Bool := (pat.map Char.toLower).isPrefixOf (s.map Char.toLower)

/-- The longest prefix a greedy `.*` can consume: characters up to the first line
terminator. -/
def lineRun (s : Str) : Str := s.takeWhile fun c => !isLineTerminator c

/-! ## `encodeURIComponent` and `buildLinks` -/

/-- Upper-case hexadecimal digit. -/
def hexDigit (n : Nat) : Char := if n < 10 then Char.ofNat (48 + n) else Char.ofNat (55 + n)

/-- A byte as `%XX`. -/
def pctByte (b : Nat) : Str := ['%', hexDigit (b / 16), hexDigit (b % 16)]

/-- UTF-8 encoding of a code point. -/
def utf8Bytes (n : Nat) : List Nat :=
  if n < 0x80 then [n]
  else if n < 0x800 then [0xC0 + n / 64, 0x80 + n % 64]
  else if n < 0x10000 then [0xE0 + n / 4096, 0x80 + n / 64 % 64, 0x80 + n % 64]
  else [0xF0 + n / 262144, 0x80 + n / 4096 % 64, 0x80 + n / 64 % 64, 0x80 + n % 64]

/-- Characters `encodeURIComponent` leaves alone: ASCII letters, digits and `-_.!~*'()`. -/
def isUriUnreserved (c : Char) : Bool :=
  c.isAlphanum || c == '-' || c == '_' || c == '.' || c == '!' || c == '~' || c == '*' ||
  c == sq || c == '(' || c == ')'

/-- `encodeURIComponent` on a well-formed string. -/
def encodeURIComponent (s : Str) : Str :=
  s.flatMap fun c => if isUriUnreserved c then [c] else (utf8Bytes c.toNat).flatMap pctByte

def kYoutubeSearch : Str := "youtubeSearch".toList
def kSpotifySearch : Str := "spotifySearch".toList
def kAppleMusicSearch : Str := "appleMusicSearch".toList
def kApple : Str := "apple".toList
def kYoutubeExact : Str := "youtubeExact".toList

/-- `buildLinks(query)`: the three search links; a JS object is an ordered key/value
list.  (`query || ''` is the identity on strings.) -/
def buildLinks (query : Str) : List (Str × Str) :=
  let q := encodeURIComponent query
  [ (kYoutubeSearch, "https://www.youtube.com/results?search_query=".toList ++ q),
    (kSpotifySearch, "https://open.spotify.com/search/".toList ++ q),
    (kAppleMusicSearch, "https://music.apple.com/search?term=".toList ++ q) ]

/-- Property assignment `obj[k] = v` on an ordered key/value list. -/
def setKey (ls : List (Str × Str)) (k v : Str) : List (Str × Str) :=
  if (ls.lookup k).isSome then ls.map fun kv => if kv.1 == k then (k, v) else kv
  else ls ++ [(k, v)]

/-! ## `queryITunes` -/

/-- One element of `results` in the catalog response. -/
structure ITunesResult where
  artworkUrl100 : Option Str
  trackViewUrl : Option Str
  collectionViewUrl : Option Str
  artistViewUrl : Option Str
  artistName : Option Str
  trackName : Option Str
  deriving DecidableEq

/-- The catalog response body `j`. -/
structure ITunesJson where
  resultCount : Nat
  results : List ITunesResult
  deriving DecidableEq

/-- What `queryITunes` returns on a match. -/
structure ITunesMatch where
  artwork : Option Str
  itunesUrl : Option Str
  artistName : Option Str
  trackName : Option Str
  deriving DecidableEq

/-- The pattern `100x100bb.jpg` against a 13-character tail; the unescaped `.` matches any
single UTF-16 code unit that is not a line terminator. -/
def matchesArtSuffix : Str → Bool
  | ['1', '0', '0', 'x', '1', '0', '0', 'b', 'b', c, 'j', 'p', 'g'] =>
    !isLineTerminator c && decide (c.toNat < 0x10000)
  | _ => false

/-- `url.replace(/100x100bb.jpg$/, '600x600bb.jpg')`. -/
def upscaleArtwork (s : Str) : Str :=
  if matchesArtSuffix (s.drop (s.length - 13)) then
    s.take (s.length - 13) ++ "600x600bb.jpg".toList
  else s

/-- `queryITunes(term)`.  `fetch url` is the decoded JSON body, or `none` when the request
or the decoding threw (the `catch` logs and falls through to `return null`). -/
def queryITunes (fetch : Str → Option ITunesJson) (term : Str) : Option ITunesMatch :=
  if !truthy term then none
  else
    match fetch ("https://itunes.apple.com/search?term=".toList ++ encodeURIComponent term ++
        "&media=music&limit=1".toList) with
    | none => none
    | some j =>
      if j.resultCount != 0 then
        match j.results with
        | r :: _ =>
          some
            { artwork :=
                match r.artworkUrl100 with
                | some a => if truthy a then some (upscaleArtwork a) else none
                | none => none
              itunesUrl := jsOr (jsOr (jsOr r.trackViewUrl r.collectionViewUrl) r.artistViewUrl) none
              artistName := jsOr r.artistName none
              trackName := jsOr r.trackName none }
        | [] => none
      else none

/-! ## `youtubeFirstVideo` -/

/-- The literal `"videoId":"` (with its quotes). -/
def videoIdOpen : Str := [dq] ++ "videoId".toList ++ [dq, ':', dq]

/-- `/"videoId":"([^"]+)"/` anchored at the start of the input: the capture is the
maximal run of non-quote characters; it must be non-empty and followed by a quote. -/
def videoIdAt (s : Str) : Option Str :=
  if videoIdOpen.isPrefixOf s then
    let rest := s.drop videoIdOpen.length
    let cap := rest.takeWhile fun c => c != dq
    if !cap.isEmpty && (rest.drop cap.length).head? == some dq then some cap else none
  else none

/-- The character class `[^"'&<>\s]`. -/
def isWatchIdChar (c : Char) : Bool :=
  !(c == dq || c == sq || c == '&' || c == '<' || c == '>' || isWhiteSpace c)

/-- `/watch\\?v=([^"'&<>\s]+)/` anchored at the start of the input.  In the regex literal
`\\` is an escaped backslash and the `?` after it makes that backslash optional: the
pattern reads `watch`, an optional backslash, `v=`, then the capture. -/
def watchAt (s : Str) : Option Str :=
  if "watch".toList.isPrefixOf s then
    let rest := s.drop 5
    let rest := match rest with
      | c :: cs => if c == backslash then cs else c :: cs
      | [] => []
    if "v=".toList.isPrefixOf rest then
      let cap := (rest.drop 2).takeWhile isWatchIdChar
      if !cap.isEmpty then some cap else none
    else none
  else none

/-- `m && m[1]`: the first capture group of a match, when it is truthy. -/
def capture1 (m : Option Str) : Option Str := m.filter truthy

def watchUrl (id : Str) : Str := "https://www.youtube.com/watch?v=".toList ++ id

/-- `youtubeFirstVideo(term)`.  `fetch url` is the response text, or `none` when the
request threw. -/
def youtubeFirstVideo (fetch : Str → Option Str) (term : Str) : Option Str :=
  if !truthy term then none
  else
    match fetch ("https://www.youtube.com/results?search_query=".toList ++
        encodeURIComponent term) with
    | none => none
    | some text =>
      match capture1 (firstMatch videoIdAt text) with
      | some id => some (watchUrl id)
      | none =>
        match capture1 (firstMatch watchAt text) with
        | some id => some (watchUrl id)
        | none => none

/-! ## `scrapeKFM` -/

/-- The separator `' - '`. -/
def dash : Str := " - ".toList

/-- The infix `' by '`. -/
def byWord : Str := " by ".toList

/-- `raw.split(' - ')`: left-to-right scan for non-overlapping occurrences of the
separator; `acc` holds the current segment, reversed. -/
def splitDash : Str → Str → List Str
  | [], acc => [acc.reverse]
  | c :: d :: e :: rest, acc =>
    if c = ' ' ∧ d = '-' ∧ e = ' ' then acc.reverse :: splitDash rest []
    else splitDash (d :: e :: rest) (c :: acc)
  | c :: cs, acc => splitDash cs (c :: acc)

/-- `parts.join(sep)`. -/
def joinWith (sep : Str) : List Str → Str
  | [] => []
  | [x] => x
  | x :: y :: r => x ++ sep ++ joinWith sep (y :: r)

/-- The tail ` by (.+)` of `/(.+) by (.+)/i`, anchored where the first group ends: the
four characters of the infix (letters in either case), then a non-empty greedy run of
non-line-terminators, which is the second group. -/
def bySuffixAt (t : Str) : Option Str :=
  if ciPrefix byWord t ∧ lineRun (t.drop 4) ≠ [] then some (lineRun (t.drop 4)) else none

/-- Backtracking of the greedy first group of `/(.+) by (.+)/i` from length `n` down to
1: the longest first group after which the rest of the pattern matches. -/
def byTry (s : Str) : Nat → Option (Str × Str)
  | 0 => none
  | j + 1 =>
    match bySuffixAt (s.drop (j + 1)) with
    | some a => some (s.take (j + 1), a)
    | none => byTry s j

/-- `/(.+) by (.+)/i` anchored at the start of the input; the first group can reach at
most to the first line terminator. -/
def byAt (s : Str) : Option (Str × Str) := byTry s (lineRun s).length

/-- `raw.match(/(.+) by (.+)/i)`: the groups `(m[1], m[2])` of the leftmost match. -/
def matchBy (s : Str) : Option (Str × Str) := firstMatch byAt s

/-- Lines 96–111 of `scrapeKFM`: `(artistVal, titleVal)` after the fallback formats, from
the normalized structured fields and the normalized raw text. -/
def fallbackFields (artist title raw : Str) : Str × Str :=
  if (!truthy artist || !truthy title) && includes dash raw then
    let parts := splitDash raw []
    (orAssign artist (normalize parts.head?),
     orAssign title (normalize (some (joinWith dash parts.tail))))
  else if (!truthy artist || !truthy title) && includes byWord raw then
    match matchBy raw with
    | some (m1, m2) => (orAssign artist (normalize (some m2)), orAssign title (normalize (some m1)))
    | none => (artist, title)
  else (artist, title)

/-- Line 113: `artistVal && titleVal ? artistVal + ' ' + titleVal : raw || 'KFM'`. -/
def lookupQuery (artistVal titleVal raw : Str) : Str :=
  if truthy artistVal && truthy titleVal then artistVal ++ " ".toList ++ titleVal
  else if truthy raw then raw else "KFM".toList

/-- Lines 117–119: the search links, overlaid with the catalog URL and the exact video
URL when the lookups produced them. -/
def overlayLinks (lookup : Str) (it : Option ITunesMatch) (yt : Option Str) :
    List (Str × Str) :=
  let links := buildLinks lookup
  let links :=
    match it.bind (fun m => m.itunesUrl) with
    | some u => if truthy u then setKey links kApple u else links
    | none => links
  match yt with
  | some y => if truthy y then setKey links kYoutubeExact y else links
  | none => links

/-- What the page read produced: the three `innerText`s (each `''` when its `$eval`
failed) and the artwork `src` attribute expression (`none` is `null`/`undefined`). -/
structure PageFields where
  latestSong : Str
  artistName : Str
  songName : Str
  playerImage : Option Str
  deriving DecidableEq

/-- Outcome of opening, reading and closing the page: either something threw, with
`String(err)`, or the fields were read. -/
inductive PageRead where
  | failed (err : Str)
  | loaded (f : PageFields)
  deriving DecidableEq

/-- The outside world of one `scrapeKFM` call. -/
structure Env where
  itunes : Str → Option ITunesJson
  youtube : Str → Option Str
  clock : Str

/-- The record `scrapeKFM` returns; `none` is `null` or an absent property. -/
structure Snapshot where
  id : Str
  name : Str
  url : Str
  now : Str
  artist : Option Str
  title : Option Str
  artwork : Option Str
  links : Option (List (Str × Str))
  error : Option Str
  scrapedAt : Str
  deriving DecidableEq

/-- `s || null` on a string. -/
def orNull (s : Str) : Option Str := if truthy s then some s else none

/-- `scrapeKFM(browser)`. -/
def scrapeKFM (env : Env) (page : PageRead) : Snapshot :=
  match page with
  | .failed err =>
    { id := "kfm".toList, name := "KFM".toList,
      url := "https://www.radio-south-africa.co.za/kfm".toList,
      now := [], artist := none, title := none, artwork := none, links := none,
      error := some err, scrapedAt := env.clock }
  | .loaded f =>
    let raw := normalize (some f.latestSong)
    let artist := normalize (some f.artistName)
    let title := normalize (some f.songName)
    let vals := fallbackFields artist title raw
    let lookup := lookupQuery vals.1 vals.2 raw
    let it := queryITunes env.itunes lookup
    let yt := youtubeFirstVideo env.youtube lookup
    { id := "kfm".toList, name := "KFM".toList,
      url := "https://www.radio-south-africa.co.za/kfm".toList,
      now := raw,
      artist := orNull vals.1,
      title := orNull vals.2,
      artwork := jsOr (jsOr f.playerImage (it.bind fun m => m.artwork)) none,
      links := some (overlayLinks lookup it yt),
      error := none, scrapedAt := env.clock }

/-! ## The daily log in `run` -/

/-- A JavaScript value as far as `run` handles one: what `JSON.parse` can return, plus
`undefined` and the entries pushed in memory.  No numeric field is ever read, so a number
carries an integer. -/
inductive JVal where
  | undefined
  | null
  | bool (b : Bool)
  | num (n : Int)
  | str (s : Str)
  | arr (xs : List JVal)
  | obj (kvs : List (Str × JVal))

def kItems : Str := "items".toList
def kDate : Str := "date".toList
def kStationId : Str := "stationId".toList
def kStationName : Str := "stationName".toList
def kArtist : Str := "artist".toList
def kTitle : Str := "title".toList
def kNow : Str := "now".toList
def kLinks : Str := "links".toList
def kArtwork : Str := "artwork".toList
def kFirstSeen : Str := "firstSeen".toList
def kFind : Str := "find".toList

/-- The `TypeError` of reading a property of `null` or `undefined`. -/
def errReadProp (k : Str) : Str :=
  "TypeError: Cannot read properties of null or undefined, reading ".toList ++ k

/-- The `TypeError` of calling `.find` on something that is not an array. -/
def errNotArray : Str := "TypeError: today.items.find is not a function".toList

/-- Property read `v.k` for the data property names used by `run` (none of them exists
on a prototype): throws on `null`/`undefined`, is the stored value on an object that has
the key and `undefined` otherwise. -/
def getProp (v : JVal) (k : Str) : Except Str JVal :=
  match v with
  | .undefined => .error (errReadProp k)
  | .null => .error (errReadProp k)
  | .obj kvs => .ok ((kvs.lookup k).getD .undefined)
  | _ => .ok .undefined

/-- `v === s` for a string `s`. -/
def strictEqStr (v : JVal) (s : Str) : Bool :=
  match v with
  | .str x => x == s
  | _ => false

/-- JavaScript truthiness. -/
def jsTruthy : JVal → Bool
  | .undefined => false
  | .null => false
  | .bool b => b
  | .num n => n != 0
  | .str s => truthy s
  | .arr _ => true
  | .obj _ => true

/-- `xs.find(pred)` where the callback may throw: the first element on which the
callback is truthy. -/
def findItem (pred : JVal → Except Str Bool) : List JVal → Except Str (Option JVal)
  | [] => .ok none
  | i :: rest =>
    match pred i with
    | .error e => .error e
    | .ok true => .ok (some i)
    | .ok false => findItem pred rest

/-- The callback `i => i.stationId === r.id && i.artist === r.artist && i.title === r.title`
(line 181), with `r.artist` and `r.title` strings. -/
def songPred (id artist title : Str) (i : JVal) : Except Str Bool :=
  match getProp i kStationId, getProp i kArtist, getProp i kTitle with
  | .ok s, .ok a, .ok t => .ok (strictEqStr s id && strictEqStr a artist && strictEqStr t title)
  | .error e, _, _ => .error e
  | _, .error e, _ => .error e
  | _, _, .error e => .error e

/-- The callback `i => i.stationId === r.id && i.now === r.now` (line 194). -/
def rawPred (id now : Str) (i : JVal) : Except Str Bool :=
  match getProp i kStationId, getProp i kNow with
  | .ok s, .ok n => .ok (strictEqStr s id && strictEqStr n now)
  | .error e, _ => .error e
  | _, .error e => .error e

/-- An optional string as a property value. -/
def optStr : Option Str → JVal
  | some s => .str s
  | none => .null

/-- The `links` property of a snapshot as a value. -/
def linksVal : Option (List (Str × Str)) → JVal
  | some ls => .obj (ls.map fun kv => (kv.1, .str kv.2))
  | none => .undefined

/-- The alternative `listen to .*live` of the promo pattern, anchored at the start of
the input: the literal, then `.*` over non-line-terminators, then `live`. -/
def listenLiveAt (s : Str) : Bool :=
  ciPrefix "listen to ".toList s &&
    (List.range ((lineRun (s.drop 10)).length + 1)).any fun k =>
      ciPrefix "live".toList ((s.drop 10).drop k)

/-- The promo pattern anchored at the start of the input. -/
def promoAt (s : Str) : Bool :=
  listenLiveAt s || ciPrefix "radio-south-africa".toList s ||
    ciPrefix "best South African radio".toList s

/-- `re.test(s)`: the anchored matcher succeeds at some position. -/
def testAt (f : Str → Bool) : Str → Bool
  | [] => f []
  | c :: cs => f (c :: cs) || testAt f cs

/-- `isPromo(s)`:
`/listen to .*live|radio-south-africa|best South African radio/i.test(s || '')`. -/
def isPromo (s : Str) : Bool := testAt promoAt s

/-- `r.artist && r.title` (line 177) as a condition. -/
def hasArtistTitle (r : Snapshot) : Bool :=
  match r.artist, r.title with
  | some a, some t => truthy a && truthy t
  | _, _ => false

/-- The entry pushed at lines 184–192. -/
def songEntry (r : Snapshot) : JVal :=
  .obj [ (kStationId, .str r.id), (kStationName, .str r.name),
         (kArtist, optStr r.artist), (kTitle, optStr r.title),
         (kLinks, linksVal r.links), (kArtwork, optStr r.artwork),
         (kFirstSeen, .str r.scrapedAt) ]

/-- The entry pushed at lines 196–203. -/
def rawEntry (r : Snapshot) : JVal :=
  .obj [ (kStationId, .str r.id), (kStationName, .str r.name),
         (kNow, .str r.now),
         (kLinks, linksVal r.links), (kArtwork, optStr r.artwork),
         (kFirstSeen, .str r.scrapedAt) ]

/-- The value of `today` after `today.items.push(e)`, `xs` being the elements before. -/
def pushItem (today : JVal) (xs : List JVal) (e : JVal) : JVal :=
  match today with
  | .obj kvs => .obj (kvs.map fun kv => if kv.1 == kItems then (kv.1, .arr (xs ++ [e])) else kv)
  | v => v

/-- `today.items.find(pred)` followed by `if (!exists) today.items.push(e)`.  A found
element satisfied the callback, so it is an object and `!exists` is false. -/
def findOrPush (today : JVal) (pred : JVal → Except Str Bool) (e : JVal) : Except Str JVal :=
  match getProp today kItems with
  | .error err => .error err
  | .ok (.arr xs) =>
    match findItem pred xs with
    | .error err => .error err
    | .ok (some _) => .ok today
    | .ok none => .ok (pushItem today xs e)
  | .ok .undefined => .error (errReadProp kFind)
  | .ok .null => .error (errReadProp kFind)
  | .ok _ => .error errNotArray

/-- The dedup-append step: lines 175–204 of `run` for one snapshot `r`, as the new value
of `today` or the exception thrown. -/
def appendStep (today : JVal) (r : Snapshot) : Except Str JVal :=
  if hasArtistTitle r then
    findOrPush today (songPred r.id (r.artist.getD []) (r.title.getD [])) (songEntry r)
  else if truthy r.now && !isPromo r.now then
    findOrPush today (rawPred r.id r.now) (rawEntry r)
  else .ok today

/-- The initial `{ date: dateKey, items: [] }`. -/
def emptyLog (dateKey : Str) : JVal := .obj [(kDate, .str dateKey), (kItems, .arr [])]

/-- The persisted file of the day: absent, or present with `JSON.parse(readFileSync(..))`
either throwing (`none`) or returning a value. -/
inductive TodayFile where
  | missing
  | present (parsed : Option JVal)

/-- Lines 165–172: the value of `today` before the loop. -/
def loadToday (dateKey : Str) (f : TodayFile) : JVal :=
  match f with
  | .missing => emptyLog dateKey
  | .present none => emptyLog dateKey
  | .present (some v) => v

/-- Lines 165–204: load the day file, then run the step for every result in order. -/
def runLog (dateKey : Str) (f : TodayFile) (results : List Snapshot) : Except Str JVal :=
  results.foldlM appendStep (loadToday dateKey f)

/-! ## Identity keys -/

/-- Property read that never throws: `undefined` on anything without the key. -/
def propOf (i : JVal) (k : Str) : JVal :=
  match i with
  | .obj kvs => (kvs.lookup k).getD .undefined
  | _ => .undefined

/-- An identity key: station, artist and title, or station and raw text. -/
inductive IdentityKey where
  | song (stationId artist title : JVal)
  | raw (stationId now : JVal)

/-- The identity of a log entry: station, artist and title when the entry has both artist
and title (in the sense of `r.artist && r.title`, line 177, and `it.artist && it.title`,
`docs/main.js` line 106), station and raw text otherwise. -/
def identityKey (i : JVal) : IdentityKey :=
  if jsTruthy (propOf i kArtist) && jsTruthy (propOf i kTitle) then
    .song (propOf i kStationId) (propOf i kArtist) (propOf i kTitle)
  else .raw (propOf i kStationId) (propOf i kNow)

/-- The elements of `today.items` when `today` is an object with an `items` array. -/
def itemsOf (today : JVal) : Option (List JVal) :=
  match today with
  | .obj kvs =>
    match kvs.lookup kItems with
    | some (.arr xs) => some xs
    | _ => none
  | _ => none

/-- A value is an object. -/
def isObj : JVal → Bool
  | .obj _ => true
  | _ => false

/-! ## Normal form of `normalize` -/

/-- Every whitespace character is a plain space and no two are adjacent. -/
def Collapsed (s : Str) : Prop :=
  (∀ c ∈ s, isWhiteSpace c = true → c = ' ') ∧
    List.Chain' (fun a b => ¬(isWhiteSpace a = true ∧ isWhiteSpace b = true)) s

/-- Neither the first nor the last character is whitespace. -/
def NoEdgeWs (s : Str) : Prop :=
  (∀ c ∈ s.head?, isWhiteSpace c = false) ∧ (∀ c ∈ s.getLast?, isWhiteSpace c = false)

/-- The shape of every output of `normalize`. -/
def Normalized (s : Str) : Prop := Collapsed s ∧ NoEdgeWs s

/-- The lookup query `scrapeKFM` computes from the page fields (its local `lookup`). -/
def lookupOf (f : PageFields) : Str :=
  let raw := normalize (some f.latestSong)
  let vals := fallbackFields (normalize (some f.artistName)) (normalize (some f.songName)) raw
  lookupQuery vals.1 vals.2 raw

/-- The value of the `find` callback of line 181 on an element that is an object. -/
def songMatch (id artist title : Str) (i : JVal) : Bool :=
  strictEqStr (propOf i kStationId) id && strictEqStr (propOf i kArtist) artist &&
    strictEqStr (propOf i kTitle) title

/-- The value of the `find` callback of line 194 on an element that is an object. -/
def rawMatch (id now : Str) (i : JVal) : Bool :=
  strictEqStr (propOf i kStationId) id && strictEqStr (propOf i kNow) now

/-- A daily log: an object whose `items` is an array `xs` of objects. -/
def IsDailyLog (today : JVal) (xs : List JVal) : Prop :=
  itemsOf today = some xs ∧ ∀ i ∈ xs, isObj i = true

/-- No two items share an identity key. -/
def DistinctKeys (xs : List JVal) : Prop :=
  xs.Pairwise fun a b => identityKey a ≠ identityKey b

/-- The promo denylist in words: ignoring letter case, the text contains `listen to `
followed later by `live`, or contains `radio-south-africa`, or contains
`best South African radio`. -/
def PromoText (s : Str) : Prop :=
  (∃ a b c, s.map Char.toLower =
      a ++ "listen to ".toList ++ b ++ "live".toList ++ c) ∨
    "radio-south-africa".toList <:+: s.map Char.toLower ∨
    "best south african radio".toList <:+: s.map Char.toLower

/-! ## Sample data -/

/-- A snapshot with artist and title. -/
def sampleSong : Snapshot :=
  { id := "kfm".toList, name := "KFM".toList,
    url := "https://www.radio-south-africa.co.za/kfm".toList,
    now := "Queen - Bohemian Rhapsody".toList,
    artist := some "Queen".toList, title := some "Bohemian Rhapsody".toList,
    artwork := none, links := some (buildLinks "Queen Bohemian Rhapsody".toList),
    error := none, scrapedAt := "2024-05-01T10:00:00.000Z".toList }

/-- The same song captured later. -/
def sampleSongLater : Snapshot :=
  { sampleSong with scrapedAt := "2024-05-01T10:05:00.000Z".toList }

/-- A snapshot with raw text only. -/
def sampleRaw : Snapshot :=
  { id := "kfm".toList, name := "KFM".toList,
    url := "https://www.radio-south-africa.co.za/kfm".toList,
    now := "News at ten".toList, artist := none, title := none,
    artwork := none, links := some (buildLinks "News at ten".toList),
    error := none, scrapedAt := "2024-05-01T10:10:00.000Z".toList }

/-- A snapshot whose raw text is station boilerplate. -/
def samplePromo : Snapshot :=
  { sampleRaw with now := "Listen to KFM 94.5 Live".toList }

/-- A daily log holding the sample song. -/
def sampleLog : JVal :=
  .obj [(kDate, .str "2024-05-01".toList), (kItems, .arr [songEntry sampleSong])]

/-! ## Theorems about `normalize` -/

theorem collapseWs_cons_ws {c : Char} (h : isWhiteSpace c = true) (b : Bool) (cs : Str) :
    collapseWs b (c :: cs) = if b then collapseWs true cs else ' ' :: collapseWs true cs := by
  simp [collapseWs, h]

theorem collapseWs_cons_not {c : Char} (h : isWhiteSpace c = false) (b : Bool) (cs : Str) :
    collapseWs b (c :: cs) = c :: collapseWs false cs := by
  simp [collapseWs, h]

theorem collapseWs_true_head (s : Str) :
    ∀ c ∈ (collapseWs true s).head?, isWhiteSpace c = false := by
  induction s with
  | nil => simp [collapseWs]
  | cons a s ih =>
    cases h : isWhiteSpace a with
    | true => rw [collapseWs_cons_ws h]; simpa using ih
    | false => rw [collapseWs_cons_not h]; simpa using h

theorem collapsed_cons {a : Char} {s : Str} (hs : Collapsed s)
    (ha : isWhiteSpace a = true → a = ' ' ∧ ∀ c ∈ s.head?, isWhiteSpace c = false) :
    Collapsed (a :: s) := by
  refine ⟨?_, ?_⟩
  · intro c hc hw
    rcases List.mem_cons.1 hc with rfl | hc
    · exact (ha hw).1
    · exact hs.1 c hc hw
  · rw [List.chain'_cons']
    refine ⟨?_, hs.2⟩
    intro y hy hboth
    have := (ha hboth.1).2 y hy
    rw [this] at hboth
    exact Bool.false_ne_true hboth.2

theorem collapsed_collapseWs (b : Bool) (s : Str) : Collapsed (collapseWs b s) := by
  induction s generalizing b with
  | nil => exact ⟨by simp [collapseWs], by simp [collapseWs]⟩
  | cons a s ih =>
    cases h : isWhiteSpace a with
    | true =>
      rw [collapseWs_cons_ws h]
      cases b with
      | true => simpa using ih true
      | false =>
        simp only [Bool.false_eq_true, if_false]
        exact collapsed_cons (ih true) fun _ => ⟨rfl, collapseWs_true_head s⟩
    | false =>
      rw [collapseWs_cons_not h]
      exact collapsed_cons (ih false) fun hw => by rw [h] at hw; exact absurd hw (by decide)

theorem collapsed_of_part {s t : Str} (h : Collapsed t) (hi : s <:+: t) : Collapsed s :=
  ⟨fun c hc hw => h.1 c (hi.subset hc) hw, List.Chain'.infix h.2 hi⟩

theorem collapseWs_fix (t : Str) (h : Collapsed t) :
    collapseWs false t = t ∧
      ((∀ c ∈ t.head?, isWhiteSpace c = false) → collapseWs true t = t) := by
  induction t with
  | nil => simp [collapseWs]
  | cons a t ih =>
    have ht : Collapsed t := collapsed_of_part h ⟨[a], [], by simp⟩
    have ih := ih ht
    cases ha : isWhiteSpace a with
    | true =>
      have hsp : a = ' ' := h.1 a (by simp) ha
      have hnext : ∀ c ∈ t.head?, isWhiteSpace c = false := by
        intro c hc
        have := (List.chain'_cons'.1 h.2).1 c hc
        simpa [ha] using this
      refine ⟨?_, ?_⟩
      · rw [collapseWs_cons_ws ha, ih.2 hnext, hsp]; rfl
      · intro hh
        have := hh a (by simp)
        rw [ha] at this
        exact absurd this (by decide)
    | false =>
      refine ⟨?_, fun _ => ?_⟩
      · rw [collapseWs_cons_not ha, ih.1]
      · rw [collapseWs_cons_not ha, ih.1]

theorem trim_part (s : Str) : trim s <:+: s :=
  List.IsInfix.trans (List.IsPrefix.isInfix (List.rdropWhile_prefix _ _))
    (List.IsSuffix.isInfix (List.dropWhile_suffix _))

theorem trim_eq_self {s : Str} (h : NoEdgeWs s) : trim s = s := by
  have h1 : s.dropWhile isWhiteSpace = s := by
    cases s with
    | nil => rfl
    | cons a s =>
      have := h.1 a (by simp)
      simp [List.dropWhile_cons, this]
  unfold trim
  rw [h1, List.rdropWhile_eq_self_iff]
  intro hl
  have := h.2 (s.getLast hl) (by simp [List.getLast?_eq_getLast _ hl])
  simp [this]

theorem noEdgeWs_trim (s : Str) : NoEdgeWs (trim s) := by
  unfold trim
  set u := s.dropWhile isWhiteSpace with hu
  have hhead : ∀ c ∈ u.head?, isWhiteSpace c = false := by
    intro c hc
    have := List.head?_dropWhile_not isWhiteSpace s
    rw [← hu] at this
    rw [Option.mem_def] at hc
    rw [hc] at this
    simpa using this
  refine ⟨?_, ?_⟩
  · intro c hc
    rw [Option.mem_def, List.head?_eq_some_iff] at hc
    obtain ⟨ys, hys⟩ := hc
    have hp : u.rdropWhile isWhiteSpace <+: u := List.rdropWhile_prefix _ _
    rw [hys] at hp
    obtain ⟨r, hr⟩ := hp
    exact hhead c (by rw [← hr]; simp)
  · intro c hc
    rw [Option.mem_def] at hc
    have h2 : (u.rdropWhile isWhiteSpace).rdropWhile isWhiteSpace = u.rdropWhile isWhiteSpace :=
      List.rdropWhile_idempotent _ _
    rw [List.rdropWhile_eq_self_iff] at h2
    have hne : u.rdropWhile isWhiteSpace ≠ [] := by
      intro h0; rw [h0] at hc; simp at hc
    have := h2 hne
    rw [List.getLast?_eq_getLast _ hne] at hc
    simp only [Option.some.injEq] at hc
    rw [hc] at this
    simpa using this

theorem normalized_normalize (x : Option Str) : Normalized (normalize x) :=
  ⟨collapsed_of_part (collapsed_collapseWs false _) (trim_part _), noEdgeWs_trim _⟩

theorem normalize_eq_self {s : Str} (h : Normalized s) : normalize (some s) = s := by
  unfold normalize
  simp only [Option.getD_some]
  rw [(collapseWs_fix s h.1).1, trim_eq_self h.2]

/-- C8: `normalize` is idempotent on every input (a string, or `null`/absent), and the two
sample values hold: `normalize("  a\n\tb  ") = "a b"` and `normalize(null) = ""`. -/
theorem normalize_idempotent :
    (∀ x : Option Str, normalize (some (normalize x)) = normalize x) ∧
      normalize (some "  a\n\tb  ".toList) = "a b".toList ∧ normalize none = [] :=
  ⟨fun x => normalize_eq_self (normalized_normalize x), by decide, by decide⟩

/-! ## Pieces of a normalized string -/

theorem normalized_prefix_of_space {pre rest : Str} (h : Normalized (pre ++ ' ' :: rest)) :
    pre ≠ [] ∧ Normalized pre := by
  have hne : pre ≠ [] := by
    rintro rfl
    have := h.2.1 ' ' (by simp)
    exact absurd this (by decide)
  refine ⟨hne, collapsed_of_part h.1 ⟨[], ' ' :: rest, by simp⟩, ?_, ?_⟩
  · intro c hc
    refine h.2.1 c ?_
    cases pre with
    | nil => exact absurd rfl hne
    | cons a pre => simpa using hc
  · intro c hc
    have hch := (List.chain'_append.1 h.1.2).2.2 c hc ' ' (by simp)
    cases hw : isWhiteSpace c with
    | false => rfl
    | true => exact absurd ⟨hw, by decide⟩ hch

theorem normalized_suffix_of_space {pre rest : Str} (h : Normalized (pre ++ ' ' :: rest)) :
    rest ≠ [] ∧ Normalized rest := by
  have hne : rest ≠ [] := by
    rintro rfl
    have := h.2.2 ' ' (by simp)
    exact absurd this (by decide)
  refine ⟨hne, collapsed_of_part h.1 ⟨pre ++ [' '], [], by simp⟩, ?_, ?_⟩
  · intro c hc
    have h1 : List.Chain' (fun a b => ¬(isWhiteSpace a = true ∧ isWhiteSpace b = true))
        (' ' :: rest) := List.Chain'.infix h.1.2 ⟨pre, [], by simp⟩
    have hch := (List.chain'_cons'.1 h1).1 c hc
    cases hw : isWhiteSpace c with
    | false => rfl
    | true => exact absurd ⟨by decide, hw⟩ hch
  · intro c hc
    refine h.2.2 c ?_
    rw [Option.mem_def] at hc ⊢
    rw [List.getLast?_append_of_ne_nil _ (by simp)]
    cases rest with
    | nil => exact absurd rfl hne
    | cons a rest => simpa using hc

theorem not_lineTerminator_of_normalized {s : Str} (h : Normalized s) :
    ∀ c ∈ s, isLineTerminator c = false := by
  intro c hc
  cases hw : isWhiteSpace c with
  | true =>
    have := h.1.1 c hc hw
    subst this
    decide
  | false =>
    cases hl : isLineTerminator c with
    | false => rfl
    | true =>
      have : isWhiteSpace c = true := by
        simp only [isLineTerminator, Bool.or_eq_true, beq_iff_eq] at hl
        simp only [isWhiteSpace, Bool.or_eq_true, beq_iff_eq]
        rcases hl with ((h | h) | h) | h <;> simp [h]
      rw [hw] at this
      exact absurd this (by decide)
/-! ## The separator rule -/

theorem includes_iff (pat s : Str) : includes pat s = true ↔ pat <:+: s := by
  induction s with
  | nil => simp [includes]
  | cons c cs ih =>
    simp only [includes, Bool.or_eq_true, ih, List.isPrefixOf_iff_prefix, List.infix_cons_iff]

theorem splitDash_ne_nil (s acc : Str) : splitDash s acc ≠ [] := by
  induction s, acc using splitDash.induct with
  | case1 acc => simp [splitDash]
  | case2 c d e rest acc h ih => rw [splitDash, if_pos h]; simp
  | case3 c d e rest acc h ih => rw [splitDash, if_neg h]; exact ih
  | case4 c cs acc h ih => rw [splitDash]; exact ih; exact h

theorem joinWith_cons (sep x : Str) {ys : List Str} (h : ys ≠ []) :
    joinWith sep (x :: ys) = x ++ sep ++ joinWith sep ys := by
  cases ys with
  | nil => exact absurd rfl h
  | cons y r => rfl

theorem joinWith_splitDash (s acc : Str) :
    joinWith dash (splitDash s acc) = acc.reverse ++ s := by
  induction s, acc using splitDash.induct with
  | case1 acc => simp [splitDash, joinWith]
  | case2 c d e rest acc h ih =>
    obtain ⟨rfl, rfl, rfl⟩ := h
    rw [splitDash, if_pos ⟨rfl, rfl, rfl⟩, joinWith_cons _ _ (splitDash_ne_nil _ _), ih]
    simp [dash]
  | case3 c d e rest acc h ih =>
    rw [splitDash, if_neg h, ih]
    simp
  | case4 c cs acc h ih =>
    rw [splitDash, ih]
    · simp
    · exact h

theorem splitDash_first (before after acc : Str)
    (hfirst : ∀ k < before.length, ¬ dash <+: (before ++ dash ++ after).drop k) :
    splitDash (before ++ dash ++ after) acc = (acc.reverse ++ before) :: splitDash after [] := by
  induction before generalizing acc with
  | nil => simp [dash, splitDash]
  | cons b bs ih =>
    have h0 := hfirst 0 (by simp)
    have hrest : ∀ k < bs.length, ¬ dash <+: (bs ++ dash ++ after).drop k := by
      intro k hk
      have := hfirst (k + 1) (by simp; omega)
      simpa using this
    obtain ⟨d, e, rest, hde⟩ : ∃ d e rest, bs ++ dash ++ after = d :: e :: rest := by
      cases bs with
      | nil => exact ⟨' ', '-', ' ' :: after, by simp [dash]⟩
      | cons x bs =>
        cases bs with
        | nil => exact ⟨x, ' ', '-' :: ' ' :: after, by simp [dash]⟩
        | cons y bs => exact ⟨x, y, bs ++ dash ++ after, by simp⟩
    have hcond : ¬(b = ' ' ∧ d = '-' ∧ e = ' ') := by
      rintro ⟨rfl, rfl, rfl⟩
      apply h0
      simp only [List.drop_zero, List.cons_append, List.append_assoc] at hde ⊢
      rw [hde]
      exact ⟨rest, by simp [dash]⟩
    have : (b :: bs) ++ dash ++ after = b :: d :: e :: rest := by
      simp only [List.cons_append, hde]
    rw [this, splitDash, if_neg hcond, ← hde, ih _ hrest]
    simp

/-- C3: separator rule.  With no structured artist and no structured title, when the
normalized raw text is `before ++ " - " ++ after` and no occurrence of `" - "` starts
earlier, the snapshot has artist `before` and title `after` (the whole text after the
first occurrence, later separators kept). -/
theorem scrapeKFM_separator_rule (env : Env) (f : PageFields) (before after : Str)
    (hA : normalize (some f.artistName) = []) (hT : normalize (some f.songName) = [])
    (hraw : normalize (some f.latestSong) = before ++ dash ++ after)
    (hfirst : ∀ k < before.length, ¬ dash <+: (normalize (some f.latestSong)).drop k) :
    (scrapeKFM env (.loaded f)).artist = some before ∧
      (scrapeKFM env (.loaded f)).title = some after := by
  have hN : Normalized (before ++ dash ++ after) := hraw ▸ normalized_normalize _
  have hN1 : Normalized (before ++ ' ' :: ('-' :: ' ' :: after)) := by
    simpa [dash] using hN
  have hN2 : Normalized ((before ++ [' ', '-']) ++ ' ' :: after) := by
    simpa [dash] using hN
  obtain ⟨hb, hbN⟩ := normalized_prefix_of_space hN1
  obtain ⟨ha, haN⟩ := normalized_suffix_of_space hN2
  have hinc : includes dash (before ++ dash ++ after) = true :=
    (includes_iff _ _).2 ⟨before, after, rfl⟩
  rw [hraw] at hfirst
  have hsplit := splitDash_first before after [] hfirst
  have hjoin := joinWith_splitDash after []
  have hbt : truthy before = true := by cases before <;> simp_all [truthy]
  have hat : truthy after = true := by cases after <;> simp_all [truthy]
  simp only [scrapeKFM, hA, hT, hraw, fallbackFields, hinc, hsplit, truthy, List.isEmpty_nil,
    Bool.not_true, Bool.not_false, Bool.or_self, Bool.and_self, if_true, List.head?_cons,
    List.tail_cons, hjoin, List.reverse_nil, List.nil_append, normalize_eq_self hbN,
    normalize_eq_self haN, orAssign, orNull, Bool.false_eq_true, if_false]
  simp only [truthy] at hbt hat
  simp [hbt, hat]

/-- C3 at `"Artist - Song Title"`: artist `"Artist"`, title `"Song Title"`. -/
theorem scrapeKFM_separator_rule_witness :
    (scrapeKFM ⟨fun _ => none, fun _ => none, []⟩
        (.loaded ⟨"Artist - Song Title".toList, [], [], none⟩)).artist = some "Artist".toList ∧
      (scrapeKFM ⟨fun _ => none, fun _ => none, []⟩
        (.loaded ⟨"Artist - Song Title".toList, [], [], none⟩)).title =
          some "Song Title".toList :=
  scrapeKFM_separator_rule _ ⟨"Artist - Song Title".toList, [], [], none⟩
    "Artist".toList "Song Title".toList (by decide) (by decide) (by decide) (by decide)
/-! ## Structured fields win -/

theorem truthy_iff_ne_nil (s : Str) : truthy s = true ↔ s ≠ [] := by
  cases s <;> simp [truthy]

theorem fallbackFields_fst (artist title raw : Str) (h : truthy artist = true) :
    (fallbackFields artist title raw).1 = artist := by
  unfold fallbackFields
  split
  · simp [orAssign, h]
  · split
    · split <;> simp [orAssign, h]
    · rfl

theorem fallbackFields_snd (artist title raw : Str) (h : truthy title = true) :
    (fallbackFields artist title raw).2 = title := by
  unfold fallbackFields
  split
  · simp [orAssign, h]
  · split
    · split <;> simp [orAssign, h]
    · rfl

/-- C5: structured fields always win.  For every raw text, a non-empty normalized
structured artist is the snapshot's artist and a non-empty normalized structured title is
the snapshot's title, each independently of the other and of the separators in the raw
text. -/
theorem scrapeKFM_structured_fields_win (env : Env) (f : PageFields) :
    (normalize (some f.artistName) ≠ [] →
        (scrapeKFM env (.loaded f)).artist = some (normalize (some f.artistName))) ∧
      (normalize (some f.songName) ≠ [] →
        (scrapeKFM env (.loaded f)).title = some (normalize (some f.songName))) := by
  constructor
  · intro h
    have ht := (truthy_iff_ne_nil _).2 h
    simp only [scrapeKFM, fallbackFields_fst _ _ _ ht, orNull, ht, if_true]
  · intro h
    have ht := (truthy_iff_ne_nil _).2 h
    simp only [scrapeKFM, fallbackFields_snd _ _ _ ht, orNull, ht, if_true]

/-- C5 at raw text `"x - y"` with structured artist `"A"` and title `"T"`: the snapshot
has artist `"A"` and title `"T"`. -/
theorem scrapeKFM_structured_fields_win_witness :
    normalize (some "A".toList) ≠ [] ∧ normalize (some "T".toList) ≠ [] ∧
      (scrapeKFM ⟨fun _ => none, fun _ => none, []⟩
        (.loaded ⟨"x - y".toList, "A".toList, "T".toList, none⟩)).artist = some "A".toList ∧
      (scrapeKFM ⟨fun _ => none, fun _ => none, []⟩
        (.loaded ⟨"x - y".toList, "A".toList, "T".toList, none⟩)).title = some "T".toList :=
  ⟨by decide, by decide,
    (scrapeKFM_structured_fields_win ⟨fun _ => none, fun _ => none, []⟩
      ⟨"x - y".toList, "A".toList, "T".toList, none⟩).1 (by decide),
    (scrapeKFM_structured_fields_win ⟨fun _ => none, fun _ => none, []⟩
      ⟨"x - y".toList, "A".toList, "T".toList, none⟩).2 (by decide)⟩
/-! ## The "by" rule -/

theorem lineRun_eq_self {s : Str} (h : ∀ c ∈ s, isLineTerminator c = false) :
    lineRun s = s := by
  unfold lineRun
  rw [List.takeWhile_eq_self_iff]
  intro c hc
  simp [h c hc]

theorem jsOr_none_truthy (a : Option Str) (u : Str) (h : jsOr a none = some u) :
    truthy u = true := by
  cases a with
  | none => simp [jsOr] at h
  | some s =>
    cases hs : truthy s with
    | true => simp [jsOr, hs] at h; rw [← h]; exact hs
    | false => simp [jsOr, hs] at h

theorem queryITunes_url_truthy (fetch : Str → Option ITunesJson) (term u : Str)
    (h : (queryITunes fetch term).bind (fun m => m.itunesUrl) = some u) :
    truthy u = true := by
  unfold queryITunes at h
  split at h
  · simp at h
  · split at h
    · simp at h
    · split at h
      · split at h
        · simp only [Option.some_bind] at h
          exact jsOr_none_truthy _ _ h
        · simp at h
      · simp at h

theorem youtubeFirstVideo_truthy (fetch : Str → Option Str) (term y : Str)
    (h : youtubeFirstVideo fetch term = some y) : truthy y = true := by
  unfold youtubeFirstVideo at h
  split at h
  · simp at h
  · split at h
    · simp at h
    · split at h
      · simp only [Option.some.injEq] at h
        rw [← h]; rfl
      · split at h
        · simp only [Option.some.injEq] at h
          rw [← h]; rfl
        · simp at h

/-- C9: link bundle of a success snapshot.  The links are present; their keys are exactly
the three search keys, then `apple` when the catalog lookup returned a match with a URL,
then `youtubeExact` when the video lookup returned a URL; each search key holds the value
`buildLinks` gives for the lookup query, `apple` holds the catalog URL and `youtubeExact`
the video URL. -/
theorem scrapeKFM_link_bundle (env : Env) (f : PageFields) :
    ∃ ls, (scrapeKFM env (.loaded f)).links = some ls ∧
      ls.map Prod.fst =
        [kYoutubeSearch, kSpotifySearch, kAppleMusicSearch] ++
          (if ((queryITunes env.itunes (lookupOf f)).bind fun m => m.itunesUrl).isSome
            then [kApple] else []) ++
          (if (youtubeFirstVideo env.youtube (lookupOf f)).isSome
            then [kYoutubeExact] else []) ∧
      ls.lookup kYoutubeSearch = some ("https://www.youtube.com/results?search_query=".toList ++
        encodeURIComponent (lookupOf f)) ∧
      ls.lookup kSpotifySearch = some ("https://open.spotify.com/search/".toList ++
        encodeURIComponent (lookupOf f)) ∧
      ls.lookup kAppleMusicSearch = some ("https://music.apple.com/search?term=".toList ++
        encodeURIComponent (lookupOf f)) ∧
      (∀ k ∈ [kYoutubeSearch, kSpotifySearch, kAppleMusicSearch],
        ls.lookup k = (buildLinks (lookupOf f)).lookup k) ∧
      ls.lookup kApple = ((queryITunes env.itunes (lookupOf f)).bind fun m => m.itunesUrl) ∧
      ls.lookup kYoutubeExact = youtubeFirstVideo env.youtube (lookupOf f) := by
  refine ⟨overlayLinks (lookupOf f) (queryITunes env.itunes (lookupOf f))
    (youtubeFirstVideo env.youtube (lookupOf f)), rfl, ?_⟩
  generalize lookupOf f = q
  have hit := queryITunes_url_truthy env.itunes q
  have hyt := youtubeFirstVideo_truthy env.youtube q
  unfold overlayLinks
  cases hi : (queryITunes env.itunes q).bind (fun m => m.itunesUrl) with
  | none =>
    cases hy : youtubeFirstVideo env.youtube q with
    | none =>
      refine ⟨rfl, rfl, rfl, rfl, ?_, rfl, rfl⟩
      intro k _; rfl
    | some y =>
      have := hyt y hy
      simp only [this, if_true]
      refine ⟨rfl, rfl, rfl, rfl, ?_, rfl, rfl⟩
      intro k hk
      simp only [List.mem_cons, List.mem_singleton, List.not_mem_nil, or_false] at hk
      rcases hk with rfl | rfl | rfl <;> rfl
  | some u =>
    have hu := hit u hi
    cases hy : youtubeFirstVideo env.youtube q with
    | none =>
      simp only [hu, if_true]
      refine ⟨rfl, rfl, rfl, rfl, ?_, rfl, rfl⟩
      intro k hk
      simp only [List.mem_cons, List.mem_singleton, List.not_mem_nil, or_false] at hk
      rcases hk with rfl | rfl | rfl <;> rfl
    | some y =>
      have := hyt y hy
      simp only [hu, this, if_true]
      refine ⟨rfl, rfl, rfl, rfl, ?_, rfl, rfl⟩
      intro k hk
      simp only [List.mem_cons, List.mem_singleton, List.not_mem_nil, or_false] at hk
      rcases hk with rfl | rfl | rfl <;> rfl
/-! ## The dedup-append step -/

theorem findItem_eq_find (pred : JVal → Except Str Bool) (p : JVal → Bool) (xs : List JVal)
    (h : ∀ i ∈ xs, pred i = .ok (p i)) : findItem pred xs = .ok (xs.find? p) := by
  induction xs with
  | nil => rfl
  | cons x xs ih =>
    have hx := h x (by simp)
    have ih := ih fun i hi => h i (by simp [hi])
    cases hp : p x with
    | true => simp [findItem, hx, hp]
    | false => simp [findItem, hx, hp, ih]

theorem songPred_obj (id artist title : Str) (i : JVal) (h : isObj i = true) :
    songPred id artist title i = .ok (songMatch id artist title i) := by
  cases i <;> first | rfl | exact absurd h (by decide)

theorem rawPred_obj (id now : Str) (i : JVal) (h : isObj i = true) :
    rawPred id now i = .ok (rawMatch id now i) := by
  cases i <;> first | rfl | exact absurd h (by decide)

theorem lookup_map_set (k : Str) (v : JVal) (kvs : List (Str × JVal)) :
    (kvs.map fun kv => if kv.1 == k then (kv.1, v) else kv).lookup k =
      if (kvs.lookup k).isSome then some v else none := by
  induction kvs with
  | nil => rfl
  | cons kv kvs ih =>
    obtain ⟨k1, v1⟩ := kv
    rw [List.map_cons]
    by_cases hk : k1 = k
    · subst hk
      have hb : (k1 == k1) = true := beq_self_eq_true k1
      simp only [hb, if_true, List.lookup_cons, Option.isSome_some]
    · have h1 : (k1 == k) = false := beq_eq_false_iff_ne.2 hk
      have h2 : (k == k1) = false := beq_eq_false_iff_ne.2 fun h => hk h.symm
      simp only [h1, Bool.false_eq_true, if_false, List.lookup_cons, h2]
      exact ih

theorem itemsOf_obj {today : JVal} {xs : List JVal} (h : itemsOf today = some xs) :
    ∃ kvs, today = .obj kvs ∧ kvs.lookup kItems = some (.arr xs) := by
  cases today with
  | obj kvs =>
    refine ⟨kvs, rfl, ?_⟩
    simp only [itemsOf] at h
    split at h
    · rename_i ys hy
      simp only [Option.some.injEq] at h
      rw [hy, h]
    · simp at h
  | _ => simp [itemsOf] at h

theorem itemsOf_pushItem {today : JVal} {xs : List JVal} (h : itemsOf today = some xs)
    (e : JVal) : itemsOf (pushItem today xs e) = some (xs ++ [e]) := by
  obtain ⟨kvs, rfl, hk⟩ := itemsOf_obj h
  simp only [pushItem, itemsOf, lookup_map_set, hk, Option.isSome_some, if_true]

theorem findOrPush_log {today : JVal} {xs : List JVal} (h : IsDailyLog today xs)
    (pred : JVal → Except Str Bool) (p : JVal → Bool)
    (hp : ∀ i, isObj i = true → pred i = .ok (p i)) (e : JVal) :
    findOrPush today pred e =
      .ok (if (xs.find? p).isSome then today else pushItem today xs e) := by
  obtain ⟨kvs, rfl, hk⟩ := itemsOf_obj h.1
  have hf := findItem_eq_find pred p xs fun i hi => hp i (h.2 i hi)
  simp only [findOrPush, getProp, hk, Option.getD_some, hf]
  cases xs.find? p <;> rfl

theorem hasArtistTitle_iff (r : Snapshot) :
    hasArtistTitle r = true ↔
      ∃ a t, r.artist = some a ∧ r.title = some t ∧ truthy a = true ∧ truthy t = true := by
  unfold hasArtistTitle
  split
  · rename_i a t ha ht
    simp [ha, ht]
  · rename_i hne
    constructor
    · intro h; exact absurd h (by decide)
    · rintro ⟨a, t, ha, ht, -, -⟩
      exact absurd ht (hne a t ha)

theorem identityKey_songEntry (r : Snapshot) (a t : Str) (ha : r.artist = some a)
    (ht : r.title = some t) (hta : truthy a = true) (htt : truthy t = true) :
    identityKey (songEntry r) = .song (.str r.id) (.str a) (.str t) := by
  have h1 : propOf (songEntry r) kArtist = .str a := by rw [songEntry, ha]; rfl
  have h2 : propOf (songEntry r) kTitle = .str t := by rw [songEntry, ht]; rfl
  have h3 : propOf (songEntry r) kStationId = .str r.id := rfl
  simp [identityKey, h1, h2, h3, jsTruthy, hta, htt]

theorem identityKey_rawEntry (r : Snapshot) :
    identityKey (rawEntry r) = .raw (.str r.id) (.str r.now) := by
  have h1 : propOf (rawEntry r) kArtist = .undefined := rfl
  have h3 : propOf (rawEntry r) kStationId = .str r.id := rfl
  have h4 : propOf (rawEntry r) kNow = .str r.now := rfl
  simp [identityKey, h1, h3, h4, jsTruthy]

theorem strictEqStr_self (s : Str) : strictEqStr (.str s) s = true := by
  simp [strictEqStr]

theorem songMatch_of_key (id a t : Str) (x : JVal)
    (h : identityKey x = .song (.str id) (.str a) (.str t)) : songMatch id a t x = true := by
  unfold identityKey at h
  split at h
  · simp only [IdentityKey.song.injEq] at h
    simp [songMatch, h.1, h.2.1, h.2.2, strictEqStr_self]
  · simp at h

theorem rawMatch_of_key (id now : Str) (x : JVal)
    (h : identityKey x = .raw (.str id) (.str now)) : rawMatch id now x = true := by
  unfold identityKey at h
  split at h
  · simp at h
  · simp only [IdentityKey.raw.injEq] at h
    simp [rawMatch, h.1, h.2, strictEqStr_self]

theorem distinctKeys_push {xs : List JVal} {e : JVal} {p : JVal → Bool}
    (hd : DistinctKeys xs) (hnone : xs.find? p = none)
    (hkey : ∀ x, identityKey x = identityKey e → p x = true) : DistinctKeys (xs ++ [e]) := by
  unfold DistinctKeys at hd ⊢
  rw [List.pairwise_append]
  refine ⟨hd, List.pairwise_singleton _ _, ?_⟩
  intro x hx y hy
  rw [List.mem_singleton] at hy
  subst hy
  intro heq
  have := hkey x heq
  rw [List.find?_eq_none] at hnone
  exact hnone x hx this

/-- C1: the dedup-append step preserves the daily-log invariant.  For every daily log whose
items have pairwise distinct identity keys and every snapshot, the step returns a daily
log whose items again have pairwise distinct identity keys. -/
theorem appendStep_preserves_distinct_keys (today : JVal) (xs : List JVal) (r : Snapshot)
    (hlog : IsDailyLog today xs) (hd : DistinctKeys xs) :
    ∃ today' ys, appendStep today r = .ok today' ∧ IsDailyLog today' ys ∧
      DistinctKeys ys := by
  unfold appendStep
  by_cases hat : hasArtistTitle r = true
  · obtain ⟨a, t, ha, ht, hta, htt⟩ := (hasArtistTitle_iff r).1 hat
    rw [if_pos hat, findOrPush_log hlog _ (songMatch r.id a t)
      (fun i hi => by rw [ha, ht]; exact songPred_obj _ _ _ i hi)]
    cases hf : xs.find? (songMatch r.id a t) with
    | some j => exact ⟨today, xs, rfl, hlog, hd⟩
    | none =>
      refine ⟨_, xs ++ [songEntry r], rfl, ⟨itemsOf_pushItem hlog.1 _, ?_⟩, ?_⟩
      · intro i hi
        rcases List.mem_append.1 hi with hi | hi
        · exact hlog.2 i hi
        · rw [List.mem_singleton.1 hi]; rfl
      · refine distinctKeys_push hd hf fun x hx => ?_
        rw [identityKey_songEntry r a t ha ht hta htt] at hx
        exact songMatch_of_key _ _ _ x hx
  · rw [if_neg hat]
    by_cases hraw : (truthy r.now && !isPromo r.now) = true
    · rw [if_pos hraw, findOrPush_log hlog _ (rawMatch r.id r.now)
        (fun i hi => rawPred_obj _ _ i hi)]
      cases hf : xs.find? (rawMatch r.id r.now) with
      | some j => exact ⟨today, xs, rfl, hlog, hd⟩
      | none =>
        refine ⟨_, xs ++ [rawEntry r], rfl, ⟨itemsOf_pushItem hlog.1 _, ?_⟩, ?_⟩
        · intro i hi
          rcases List.mem_append.1 hi with hi | hi
          · exact hlog.2 i hi
          · rw [List.mem_singleton.1 hi]; rfl
        · refine distinctKeys_push hd hf fun x hx => ?_
          rw [identityKey_rawEntry r] at hx
          exact rawMatch_of_key _ _ x hx
    · rw [if_neg hraw]
      exact ⟨today, xs, rfl, hlog, hd⟩
theorem find_append_hit (p : JVal → Bool) (xs : List JVal) (e : JVal) (h : p e = true) :
    ((xs ++ [e]).find? p).isSome = true := by
  rw [List.find?_append]
  cases xs.find? p with
  | some j => rfl
  | none => simp [List.find?, h]

theorem songMatch_songEntry (r : Snapshot) (a t : Str) (ha : r.artist = some a)
    (ht : r.title = some t) : songMatch r.id a t (songEntry r) = true := by
  have h1 : propOf (songEntry r) kArtist = .str a := by rw [songEntry, ha]; rfl
  have h2 : propOf (songEntry r) kTitle = .str t := by rw [songEntry, ht]; rfl
  have h3 : propOf (songEntry r) kStationId = .str r.id := rfl
  simp [songMatch, h1, h2, h3, strictEqStr_self]

theorem rawMatch_rawEntry (r : Snapshot) : rawMatch r.id r.now (rawEntry r) = true := by
  have h3 : propOf (rawEntry r) kStationId = .str r.id := rfl
  have h4 : propOf (rawEntry r) kNow = .str r.now := rfl
  simp [rawMatch, h3, h4, strictEqStr_self]

theorem isDailyLog_push {today : JVal} {xs : List JVal} (h : IsDailyLog today xs) (e : JVal)
    (he : isObj e = true) : IsDailyLog (pushItem today xs e) (xs ++ [e]) := by
  refine ⟨itemsOf_pushItem h.1 e, ?_⟩
  intro i hi
  rcases List.mem_append.1 hi with hi | hi
  · exact h.2 i hi
  · rw [List.mem_singleton.1 hi]; exact he

/-- C2: the dedup-append step is idempotent per snapshot identity.  On every daily log,
after the step has run with a snapshot, running it again with a snapshot of the same id,
artist, title and raw text (whatever its timestamp, links or artwork) returns the log
unchanged. -/
theorem appendStep_idempotent (today : JVal) (xs : List JVal) (r1 r2 : Snapshot)
    (hlog : IsDailyLog today xs) (hid : r1.id = r2.id) (hart : r1.artist = r2.artist)
    (htit : r1.title = r2.title) (hnow : r1.now = r2.now) :
    ∃ t1, appendStep today r1 = .ok t1 ∧ appendStep t1 r2 = .ok t1 := by
  have hsame : hasArtistTitle r2 = hasArtistTitle r1 := by
    simp only [hasArtistTitle, hart, htit]
  unfold appendStep
  rw [hsame, ← hid, ← hart, ← htit, ← hnow]
  by_cases hat : hasArtistTitle r1 = true
  · obtain ⟨a, t, ha, ht, -, -⟩ := (hasArtistTitle_iff r1).1 hat
    have hp : ∀ i, isObj i = true →
        songPred r1.id (r1.artist.getD []) (r1.title.getD []) i = .ok (songMatch r1.id a t i) :=
      fun i hi => by rw [ha, ht]; exact songPred_obj _ _ _ i hi
    simp only [if_pos hat]
    rw [findOrPush_log hlog _ _ hp]
    cases hf : xs.find? (songMatch r1.id a t) with
    | some j =>
      refine ⟨today, rfl, ?_⟩
      rw [findOrPush_log hlog _ _ hp, hf]; rfl
    | none =>
      refine ⟨pushItem today xs (songEntry r1), rfl, ?_⟩
      rw [findOrPush_log (isDailyLog_push hlog (songEntry r1) rfl) _ _ hp,
        find_append_hit _ _ _ (songMatch_songEntry r1 a t ha ht)]
      rfl
  · simp only [if_neg hat]
    by_cases hraw : (truthy r1.now && !isPromo r1.now) = true
    · have hp : ∀ i, isObj i = true → rawPred r1.id r1.now i = .ok (rawMatch r1.id r1.now i) :=
        fun i hi => rawPred_obj _ _ i hi
      simp only [if_pos hraw]
      rw [findOrPush_log hlog _ _ hp]
      cases hf : xs.find? (rawMatch r1.id r1.now) with
      | some j =>
        refine ⟨today, rfl, ?_⟩
        rw [findOrPush_log hlog _ _ hp, hf]; rfl
      | none =>
        refine ⟨pushItem today xs (rawEntry r1), rfl, ?_⟩
        rw [findOrPush_log (isDailyLog_push hlog (rawEntry r1) rfl) _ _ hp,
          find_append_hit _ _ _ (rawMatch_rawEntry r1)]
        rfl
    · simp only [if_neg hraw]
      exact ⟨today, rfl, trivial⟩

/-- C1 on the sample log and a raw-text snapshot: the new entry is appended and the keys
stay distinct. -/
theorem appendStep_preserves_distinct_keys_witness :
    ∃ today' ys, appendStep sampleLog sampleRaw = .ok today' ∧ IsDailyLog today' ys ∧
      DistinctKeys ys :=
  appendStep_preserves_distinct_keys sampleLog [songEntry sampleSong] sampleRaw
    ⟨rfl, fun i hi => by rw [List.mem_singleton.1 hi]; rfl⟩ (List.pairwise_singleton _ _)

/-- C2 on the empty log: the sample song is inserted once; the same song captured five
minutes later changes nothing. -/
theorem appendStep_idempotent_witness :
    ∃ t1, appendStep (emptyLog "2024-05-01".toList) sampleSong = .ok t1 ∧
      appendStep t1 sampleSongLater = .ok t1 :=
  appendStep_idempotent (emptyLog "2024-05-01".toList) [] sampleSong sampleSongLater
    ⟨rfl, fun i hi => by simp at hi⟩ rfl rfl rfl rfl
/-! ## Promotional text -/

theorem testAt_of_suffix (f : Str → Bool) {t s : Str} (hf : f t = true) (h : t <:+ s) :
    testAt f s = true := by
  induction s with
  | nil =>
    have : t = [] := List.suffix_nil.1 h
    subst this
    simpa [testAt] using hf
  | cons c cs ih =>
    rcases List.suffix_cons_iff.1 h with heq | hsuf
    · subst heq
      simp [testAt, hf]
    · simp [testAt, ih hsuf]

theorem ciPrefix_of_lower {pat t : Str} (rest : Str)
    (h : t.map Char.toLower = pat.map Char.toLower ++ rest) : ciPrefix pat t = true := by
  unfold ciPrefix
  rw [List.isPrefixOf_iff_prefix, h]
  exact List.prefix_append _ _

theorem map_lower_drop (s : Str) (a rest : Str) (h : s.map Char.toLower = a ++ rest) :
    (s.drop a.length).map Char.toLower = rest := by
  rw [List.map_drop, h, List.drop_left]

theorem promoAt_hit_of_part (pat : Str) (s : Str)
    (h : pat.map Char.toLower <:+: s.map Char.toLower) :
    ∃ t, t <:+ s ∧ ciPrefix pat t = true := by
  obtain ⟨a, c, hac⟩ := h
  refine ⟨s.drop a.length, List.drop_suffix _ _, ?_⟩
  apply ciPrefix_of_lower c
  apply map_lower_drop
  rw [← hac, List.append_assoc]

theorem isPromo_of_promoText (s : Str) (hlt : ∀ c ∈ s, isLineTerminator c = false)
    (h : PromoText s) : isPromo s = true := by
  rcases h with ⟨a, b, c, habc⟩ | h | h
  · set t := s.drop a.length with ht
    have htl : t.map Char.toLower = "listen to ".toList ++ (b ++ "live".toList ++ c) := by
      apply map_lower_drop
      rw [habc]; simp
    have h1 : ciPrefix "listen to ".toList t = true :=
      ciPrefix_of_lower (b ++ "live".toList ++ c) htl
    have hul : (t.drop 10).map Char.toLower = b ++ ("live".toList ++ c) := by
      have := map_lower_drop t "listen to ".toList _ htl
      simpa using this
    have hline : lineRun (t.drop 10) = t.drop 10 := by
      apply lineRun_eq_self
      intro x hx
      exact hlt x ((List.drop_suffix _ _).subset ((List.drop_suffix _ _).subset hx))
    have hlen : b.length ≤ (t.drop 10).length := by
      have := congrArg List.length hul
      simp only [List.length_map, List.length_append] at this
      omega
    have h2 : ciPrefix "live".toList ((t.drop 10).drop b.length) = true := by
      apply ciPrefix_of_lower c
      exact map_lower_drop _ b _ hul
    have hat : promoAt t = true := by
      simp only [promoAt, listenLiveAt, h1, Bool.true_and, Bool.or_eq_true, List.any_eq_true,
        List.mem_range]
      exact Or.inl (Or.inl ⟨b.length, by rw [hline]; omega, h2⟩)
    exact testAt_of_suffix _ hat (List.drop_suffix _ _)
  · obtain ⟨t, hsuf, hci⟩ := promoAt_hit_of_part "radio-south-africa".toList s h
    exact testAt_of_suffix _ (by rw [promoAt, hci]; simp) hsuf
  · obtain ⟨t, hsuf, hci⟩ := promoAt_hit_of_part "best South African radio".toList s h
    exact testAt_of_suffix _ (by rw [promoAt, hci]; simp) hsuf

theorem scrapeKFM_now_normalized (env : Env) (page : PageRead) :
    normalize (some (scrapeKFM env page).now) = (scrapeKFM env page).now := by
  cases page with
  | failed err => rfl
  | loaded f => exact normalize_eq_self (normalized_normalize _)

/-- C7: promotional text is never logged.  Every snapshot `scrapeKFM` returns has a
normalized raw text; and for every value of `today` and every snapshot with a normalized
raw text, no artist and no title, whose raw text matches the promo denylist, the
dedup-append step returns `today` unchanged. -/
theorem appendStep_promo_noop :
    (∀ (env : Env) (page : PageRead),
        normalize (some (scrapeKFM env page).now) = (scrapeKFM env page).now) ∧
      ∀ (today : JVal) (r : Snapshot), normalize (some r.now) = r.now →
        r.artist = none → r.title = none → PromoText r.now →
        appendStep today r = .ok today := by
  refine ⟨scrapeKFM_now_normalized, ?_⟩
  intro today r hnorm ha ht hp
  have hlt : ∀ c ∈ r.now, isLineTerminator c = false :=
    not_lineTerminator_of_normalized (hnorm ▸ normalized_normalize _)
  have hpromo := isPromo_of_promoText r.now hlt hp
  simp [appendStep, hasArtistTitle, ha, ht, hpromo]

/-- C7 on the sample log and the boilerplate `"Listen to KFM 94.5 Live"`. -/
theorem appendStep_promo_noop_witness : appendStep sampleLog samplePromo = .ok sampleLog :=
  appendStep_promo_noop.2 sampleLog samplePromo (by decide) rfl rfl
    (Or.inl ⟨[], "kfm 94.5 ".toList, [], by decide⟩)
/-! ## Loading the persisted log -/

theorem appendStep_emptyLog_ok (d : Str) (r : Snapshot) :
    ∃ t, appendStep (emptyLog d) r = .ok t := by
  have hlog : IsDailyLog (emptyLog d) [] := ⟨rfl, fun i hi => by simp at hi⟩
  unfold appendStep
  split
  · rw [findOrPush_log hlog _ (songMatch r.id (r.artist.getD []) (r.title.getD []))
      (fun i hi => songPred_obj _ _ _ i hi)]
    exact ⟨_, rfl⟩
  · split
    · rw [findOrPush_log hlog _ (rawMatch r.id r.now) (fun i hi => rawPred_obj _ _ i hi)]
      exact ⟨_, rfl⟩
    · exact ⟨_, rfl⟩

/-- C6: loading the persisted log.  A missing file and a file that does not parse give the
empty log, on which the step never raises.  A file that parses to something without an
items list is used as it is: with the file `{}` or `null` and a snapshot that has artist
and title, the step raises a `TypeError` instead of starting from the empty log. -/
theorem runLog_malformed_file_raises :
    (∀ d : Str, loadToday d .missing = emptyLog d ∧
        loadToday d (.present none) = emptyLog d) ∧
      (∀ (d : Str) (r : Snapshot), ∃ t, appendStep (emptyLog d) r = .ok t) ∧
      loadToday "2024-05-01".toList (.present (some (.obj []))) = .obj [] ∧
      runLog "2024-05-01".toList (.present (some (.obj []))) [sampleSong] =
        .error (errReadProp kFind) ∧
      runLog "2024-05-01".toList (.present (some .null)) [sampleSong] =
        .error (errReadProp kItems) ∧
      runLog "2024-05-01".toList (.present (some (.obj []))) [sampleRaw] =
        .error (errReadProp kFind) :=
  ⟨fun _ => ⟨rfl, rfl⟩, appendStep_emptyLog_ok, rfl, rfl, rfl, rfl⟩

/-! ## The watch-identifier fallback -/

/-- C10: the fallback pattern of `youtubeFirstVideo`.  A payload with no `"videoId"` token
that contains `watch?v=dQw4w9WgXcQ` yields no URL, because the pattern reads `watch`, an
optional backslash, `v=`: it matches `watchv=` and `watch\v=` but never `watch?v=`. -/
theorem youtubeFirstVideo_misses_watch_token :
    firstMatch videoIdAt "<a href=/watch?v=dQw4w9WgXcQ&t=1>".toList = none ∧
      includes "watch?v=dQw4w9WgXcQ".toList "<a href=/watch?v=dQw4w9WgXcQ&t=1>".toList = true ∧
      youtubeFirstVideo (fun _ => some "<a href=/watch?v=dQw4w9WgXcQ&t=1>".toList)
        "Queen Bohemian Rhapsody".toList = none ∧
      youtubeFirstVideo (fun _ => some "<a href=/watchv=dQw4w9WgXcQ&t=1>".toList)
        "Queen Bohemian Rhapsody".toList =
          some "https://www.youtube.com/watch?v=dQw4w9WgXcQ".toList ∧
      youtubeFirstVideo (fun _ => some ("watch".toList ++ [backslash] ++ "v=abc".toList))
        "Queen Bohemian Rhapsody".toList = some "https://www.youtube.com/watch?v=abc".toList := by
  decide
end Scraper
